import Mathlib

set_option maxRecDepth 100000

/-!
Verification of the multi-connection HyperLiquid WebSocket client.

A shallow embedding of `src/wsClient.ts` (the multi-connection subscription
manager) together with proofs about its valuation engine, connection
partitioner, reconnect/health-check state machine, persistence layer and
message handler.

Modelling conventions:
* JavaScript numeric strings (`parseFloat` of well-formed inputs) are
  modelled by their rational values (`ℚ`); absent (`undefined`) fields that
  the source defaults via `|| '0'` or optional chaining are modelled as
  `Option` with the same defaulting.
* `Map<string, T>` objects are modelled as association lists
  `List (String × T)` with first-match lookup and set-or-insert update.
* Wall-clock timestamps (`Date.now()`) are `Nat` milliseconds passed
  explicitly; purely cosmetic fields (ISO strings, `localTime` timezone
  formatting, console logging) are omitted.
* `setTimeout` scheduling is modelled by returning the scheduled delay
  (`Option Nat`); the source keeps no handle to reconnect timers, which the
  client-level model records as a list of pending reconnect timers.
-/

/-- First-match lookup on an association list, modelling `Map.get`. -/
def mapGet {α : Type} (m : List (String × α)) (k : String) : Option α :=
  (m.find? (fun p => p.1 = k)).map (·.2)

/-- Set-or-insert on an association list, modelling `Map.set`:
overwrite the first binding of the key if present, else append. -/
def mapSet {α : Type} (m : List (String × α)) (k : String) (v : α) :
    List (String × α) :=
  if m.any (fun p => p.1 = k) then
    m.map (fun p => if p.1 = k then (k, v) else p)
  else m ++ [(k, v)]

/-! Section: Configuration constants (`src/wsClient.ts`, top of file) -/

def RECONNECT_DELAY_MS : Nat := 5000
def MAX_USERS_PER_CONNECTION : Nat := 3
def MAX_RECONNECT_ATTEMPTS : Nat := 5
def HEALTH_CHECK_INTERVAL : Nat := 30000
def SUBSCRIPTION_TYPES : List String := ["webData2", "allMids"]

/-- The static alias table set up by `initializeTokenMapping`
(`tokenToAllMidsMapping.set('USOL','SOL'); set('USDC','USDC')`). -/
def tokenToAllMidsMapping : List (String × String) :=
  [("USOL", "SOL"), ("USDC", "USDC")]

/-! Section: Price cache (`latestPrices`, `getTokenPrice`, `getSpotTokenPrice`) -/

/-- The price cache `latestPrices : Map<string, string>`; price strings are
modelled by their rational values. -/
abbrev PriceCache := List (String × ℚ)

/-- The source's `updatePriceData`: `Object.entries(allMidsData.mids)` are written into
`latestPrices` one by one with `Map.set`. -/
def updatePriceData (latestPrices : PriceCache) (mids : List (String × ℚ)) :
    PriceCache :=
  mids.foldl (fun m p => mapSet m p.1 p.2) latestPrices

/-- The source's `getTokenPrice(coin)`: `latestPrices.get(coin) || null`. -/
def getTokenPrice (latestPrices : PriceCache) (coin : String) : Option ℚ :=
  mapGet latestPrices coin

/-- The source's `getSpotTokenPrice(spotCoin)`: special-case `'USDC'` at `'1.0'`; else if
the alias table has a mapping, look the alias up in `latestPrices` (returning
its result even when that lookup misses); else look the coin itself up. -/
def getSpotTokenPrice (aliases : List (String × String))
    (latestPrices : PriceCache) (spotCoin : String) : Option ℚ :=
  if spotCoin = "USDC" then some 1
  else
    match mapGet aliases spotCoin with
    | some allMidsKey => getTokenPrice latestPrices allMidsKey
    | none => getTokenPrice latestPrices spotCoin

/-! Section: Valuation engine -/

/-- One entry of `spotState.balances`. `total` is `parseFloat(balance.total)`;
`entryNtl` is `none` when the field is absent (the source reads it as
`balance.entryNtl || '0'`). -/
structure SpotBalance where
  coin : String
  total : ℚ
  entryNtl : Option ℚ
deriving DecidableEq, Repr

/-- A value recorded in the `pricesUsed` record: either an actual price
string (`'1.00'` for USDC, or the cached price) or the fallback marker
string `entryNtl:<value>`. -/
inductive PriceUsed where
  | price (p : ℚ)
  | entryNtlMark (n : ℚ)
deriving DecidableEq, Repr

/-- The source's `calculateTotalAccountValue(clearinghouseValue, spotBalances)`: the
fallback (entryNtl) valuation.  Margin value plus, for each balance,
`total` for USDC and `entryNtl || '0'` otherwise.  Note: no zero-quantity
check in this path. -/
def calculateTotalAccountValue (clearinghouseValue : ℚ)
    (spotBalances : List SpotBalance) : ℚ :=
  spotBalances.foldl
    (fun totalValue balance =>
      if balance.coin = "USDC" then totalValue + balance.total
      else totalValue + balance.entryNtl.getD 0)
    clearinghouseValue

/-- The source's `calculateTotalAccountValueWithCurrentPrices`: the live-price valuation.
Skips balances with `tokenAmount <= 0`; USDC is valued at `$1` and recorded
as `'1.00'`; other coins use `getSpotTokenPrice`, falling back to
`entryNtl || '0'` with an `entryNtl:` marker when no price is cached.
Returns the total together with the `pricesUsed` record (assignment order). -/
def calculateTotalAccountValueWithCurrentPrices
    (aliases : List (String × String)) (latestPrices : PriceCache)
    (clearinghouseValue : ℚ) (spotBalances : List SpotBalance) :
    ℚ × List (String × PriceUsed) :=
  spotBalances.foldl
    (fun acc balance =>
      let tokenAmount := balance.total
      if tokenAmount ≤ 0 then acc
      else if balance.coin = "USDC" then
        (acc.1 + tokenAmount, mapSet acc.2 balance.coin (.price 1))
      else
        match getSpotTokenPrice aliases latestPrices balance.coin with
        | some currentPrice =>
            (acc.1 + tokenAmount * currentPrice,
             mapSet acc.2 balance.coin (.price currentPrice))
        | none =>
            (acc.1 + balance.entryNtl.getD 0,
             mapSet acc.2 balance.coin (.entryNtlMark (balance.entryNtl.getD 0))))
    (clearinghouseValue, [])

/-- A historical Valuation Snapshot as built by `createHistoricalDataEntry`
(the `localTime` field, a pure reformatting of `serverTime`, is omitted). -/
structure HistoricalEntry where
  totalAccountValue : ℚ
  clearinghouseState : ℚ
  spotBalance : List SpotBalance
  pricesUsed : List (String × PriceUsed)
  serverTime : Nat
  priceSource : String
deriving DecidableEq, Repr

/-- The source's `createHistoricalDataEntry(webData2Message)`.
`marginAccountValue` models `data.clearinghouseState?.marginSummary?.accountValue`
(`none` when the chain is absent, defaulted by `|| '0'`); `spotBalances`
models `data.spotState?.balances` (defaulted by `|| []`).
`useCurrentPrices = SUBSCRIPTION_TYPES.includes('allMids') && latestPrices.size > 0`;
the live path calls `calculateTotalAccountValueWithCurrentPrices`, the
fallback path calls `calculateTotalAccountValue` and records would-be prices
for positive balances only. -/
def createHistoricalDataEntry (aliases : List (String × String))
    (latestPrices : PriceCache) (marginAccountValue : Option ℚ)
    (spotBalances : Option (List SpotBalance)) (serverTime : Nat) :
    HistoricalEntry :=
  let clearinghouseValue := marginAccountValue.getD 0
  let balances := spotBalances.getD []
  let useCurrentPrices :=
    SUBSCRIPTION_TYPES.contains "allMids" && decide (0 < latestPrices.length)
  if useCurrentPrices then
    let result :=
      calculateTotalAccountValueWithCurrentPrices aliases latestPrices
        clearinghouseValue balances
    { totalAccountValue := result.1
      clearinghouseState := clearinghouseValue
      spotBalance := balances
      pricesUsed := result.2
      serverTime := serverTime
      priceSource := "currentPrices" }
  else
    let pricesUsed :=
      balances.foldl
        (fun acc balance =>
          if 0 < balance.total then
            if balance.coin = "USDC" then mapSet acc balance.coin (.price 1)
            else mapSet acc balance.coin (.entryNtlMark (balance.entryNtl.getD 0))
          else acc)
        []
    { totalAccountValue := calculateTotalAccountValue clearinghouseValue balances
      clearinghouseState := clearinghouseValue
      spotBalance := balances
      pricesUsed := pricesUsed
      serverTime := serverTime
      priceSource := "entryNtl" }

/-! Section: Connection Pool / Partitioner (`setupConnectionGroups`) -/

/-- The source's `setupConnectionGroups`: the grouping loop
`for (let i = 0; i < userAddresses.length; i += MAX_USERS_PER_CONNECTION)
   groups.push(userAddresses.slice(i, i + MAX_USERS_PER_CONNECTION))`.
For `k ≥ 1` and a non-empty list, the first group is the first `k`
addresses and the rest recurses on the remainder
(`(x :: xs).drop k = xs.drop (k - 1)`). -/
def setupConnectionGroups (k : Nat) : List String → List (List String)
  | [] => []
  | x :: xs => (x :: xs).take k :: setupConnectionGroups k (xs.drop (k - 1))
termination_by xs => xs.length
decreasing_by simp [List.length_drop]; omega

/-! Section: Connection lifecycle -/

/-- The source's `ConnectionInfo` from `src/types.ts`, with the per-connection entry of
`connectionStats.connectionDetails` (which is keyed by the same id and
created together with it) merged in as `status` and `messagesCount`.
`ws` records whether the transport handle is non-null. -/
structure ConnectionInfo where
  id : String
  ws : Bool
  userAddresses : List String
  isConnected : Bool
  reconnectAttempts : Nat
  lastHeartbeat : Nat
  status : String
  messagesCount : Nat
deriving DecidableEq, Repr

/-- The `ws.on('open')` handler installed by `connectSingle`: marks the
connection connected, resets the reconnect-attempt counter to zero and
refreshes the heartbeat. -/
def wsOpenHandler (c : ConnectionInfo) (now : Nat) : ConnectionInfo :=
  { c with isConnected := true, reconnectAttempts := 0,
           lastHeartbeat := now, status := "connected" }

/-- The source's `handleReconnect(connectionId)` restricted to one connection: if the
attempt counter is below `MAX_RECONNECT_ATTEMPTS`, increment it, mark the
connection `reconnecting` and schedule a reconnect after
`RECONNECT_DELAY_MS * 2^(attempts - 1)` ms (returned as `some delay`);
otherwise mark it `disconnected` and schedule nothing. -/
def handleReconnect (c : ConnectionInfo) : ConnectionInfo × Option Nat :=
  if c.reconnectAttempts < MAX_RECONNECT_ATTEMPTS then
    let c' := { c with reconnectAttempts := c.reconnectAttempts + 1,
                       status := "reconnecting" }
    (c', some (RECONNECT_DELAY_MS * 2 ^ (c'.reconnectAttempts - 1)))
  else
    ({ c with status := "disconnected" }, none)

/-- The per-connection body of `performHealthCheck`: a connection flagged
connected whose heartbeat is older than `2 × HEALTH_CHECK_INTERVAL` is, in
`'continuous'` mode, forced to `isConnected = false` and put through
`handleReconnect`; in any other mode (and for healthy connections) nothing
changes.  JS `now - lastHeartbeat` on a future heartbeat is negative and
fails the staleness test, as does truncated `Nat` subtraction here. -/
def performHealthCheckConn (clientMode : String) (now : Nat)
    (c : ConnectionInfo) : ConnectionInfo × Option Nat :=
  if c.isConnected && decide (HEALTH_CHECK_INTERVAL * 2 < now - c.lastHeartbeat) then
    if clientMode = "continuous" then handleReconnect { c with isConnected := false }
    else (c, none)
  else (c, none)

/-! Section: Persistence layer, historical mode
(`saveHistoricalData`, `loadExistingData`) -/

/-- Per-account state of the historical persistence path: the in-memory
log `userExistingHistoricalData[user]` and lowest tracker
`userLowestTotalAccountValues[user]`, plus the contents of the two on-disk
files (`<user>.json`, written in full on each append, and
`<user>-lowest.json`, replaced wholesale; `none`/`[]` model a missing
file). -/
structure UserHistState where
  existingHistoricalData : List HistoricalEntry
  lowestTotalAccountValue : Option ℚ
  historicalDataFile : List HistoricalEntry
  historicalLowestFile : Option HistoricalEntry
deriving DecidableEq, Repr

/-- A fresh process on a day with no persisted files
(`initializeUserData`: empty log, `null` lowest tracker). -/
def initialUserHistState : UserHistState := ⟨[], none, [], none⟩

/-- The source's `saveHistoricalData` for one account, given the already-built entry:
append the entry to the in-memory log and rewrite the log file in full;
if the entry's `totalAccountValue` beats the tracked lowest (or none is
tracked), update the tracker and replace the lowest file with this entry. -/
def saveHistoricalData (st : UserHistState) (entry : HistoricalEntry) :
    UserHistState :=
  let totalAccountValue := entry.totalAccountValue
  let existingData := st.existingHistoricalData ++ [entry]
  let st' := { st with existingHistoricalData := existingData,
                       historicalDataFile := existingData }
  match st'.lowestTotalAccountValue with
  | none =>
      { st' with lowestTotalAccountValue := some totalAccountValue,
                 historicalLowestFile := some entry }
  | some currentLowest =>
      if totalAccountValue < currentLowest then
        { st' with lowestTotalAccountValue := some totalAccountValue,
                   historicalLowestFile := some entry }
      else st'

/-- The source's `loadExistingData`, historical branch: at startup the in-memory log is
read from the historical data file and the lowest tracker from the lowest
file (`parseFloat(existingLowestData.totalAccountValue)`); missing files
leave the fresh empty state. -/
def loadExistingData (historicalDataFile : List HistoricalEntry)
    (historicalLowestFile : Option HistoricalEntry) : UserHistState :=
  { existingHistoricalData := historicalDataFile
    lowestTotalAccountValue := historicalLowestFile.map (·.totalAccountValue)
    historicalDataFile := historicalDataFile
    historicalLowestFile := historicalLowestFile }

/-- A process restart: in-memory state is discarded and rebuilt by
`loadExistingData` from the persisted files. -/
def restartUserHistState (st : UserHistState) : UserHistState :=
  loadExistingData st.historicalDataFile st.historicalLowestFile

/-- A full multi-restart run over one account: each segment is the list of
valuation snapshots processed during one process lifetime; the process
reloads persisted state (`loadExistingData`) before applying its segment. -/
def runSegments (segments : List (List HistoricalEntry)) : UserHistState :=
  segments.foldl
    (fun st seg => seg.foldl saveHistoricalData (restartUserHistState st))
    initialUserHistState

/-- The running minimum of a list of values, folded in the order
`saveHistoricalData` observes them (`none` for an empty history). -/
def lowestOf (values : List ℚ) : Option ℚ :=
  values.foldl
    (fun acc v =>
      match acc with
      | none => some v
      | some m => some (min m v))
    none

/-! Section: Client state (`MultiConnectionHyperLiquidClient`) -/

/-- An inbound message after `JSON.parse`, routed on its `channel` field.
A `webData2` message carries `data.user` (`""` models an absent/falsy user
address), `data.clearinghouseState?.marginSummary?.accountValue` and
`data.spotState?.balances`; an `allMids` message carries `data.mids`. -/
inductive InMessage where
  | webData2 (user : String) (marginAccountValue : Option ℚ)
      (spotBalances : Option (List SpotBalance)) (serverTime : Nat)
  | allMids (mids : List (String × ℚ))
  | other (channel : String)
deriving DecidableEq, Repr

/-- The mutable state of `MultiConnectionHyperLiquidClient` relevant to the
claims.  `users` is keyed by the configured (case-preserving) addresses,
one `UserHistState` each (historical mode); `userLowestAccountValues` /
`userHighestAccountValues` are the raw trackers of `processWebData2Message`
(a missing key models `null`); `userExistingDataCounts` /
`userExistingLowestCounts` model the lengths of the raw-mode per-user logs.
`healthCheckActive` models `healthCheckInterval !== null`;
`pendingReconnects` records the reconnect `setTimeout`s scheduled by
`handleReconnect`, which the source fires anonymously and keeps no handle
to.  ISO-timestamp bookkeeping (`connectionStats.lastUpdate`) and console
logging are omitted. -/
structure MCClient where
  connections : List (String × ConnectionInfo)
  healthCheckActive : Bool
  pendingReconnects : List (String × Nat)
  totalMessagesReceived : Nat
  latestPrices : PriceCache
  lastAllMidsUpdate : Nat
  allMidsUpdateInterval : Nat
  clientMode : String
  dataSaveMode : String
  users : List (String × UserHistState)
  userLowestAccountValues : List (String × ℚ)
  userHighestAccountValues : List (String × ℚ)
  userExistingDataCounts : List (String × Nat)
  userExistingLowestCounts : List (String × Nat)
deriving Repr

/-- Lookup of a connection by id (`this.connections.get(connectionId)`). -/
def connLookup (cl : MCClient) (connectionId : String) : Option ConnectionInfo :=
  mapGet cl.connections connectionId

/-- Models `userAddress.toLowerCase()`: lower-case every character
(defined directly over the character data so proofs can evaluate it). -/
def toLowerCase (s : String) : String := ⟨s.data.map Char.toLower⟩

/-- The case-insensitive search for the configured address:
`Array.from(this.userExistingData.keys()).find(addr => addr.toLowerCase() === userAddress.toLowerCase())`. -/
def findOriginalAddress (configured : List String) (userAddress : String) :
    Option String :=
  configured.find? (fun addr => toLowerCase addr = toLowerCase userAddress)

/-- The source's `saveHistoricalData(message)` at client level: locate the configured
address case-insensitively (bail out if none matches), build the entry with
`createHistoricalDataEntry` against the current price cache, and update that
user's persistence state. -/
def saveHistoricalDataClient (cl : MCClient) (user : String)
    (marginAccountValue : Option ℚ) (spotBalances : Option (List SpotBalance))
    (serverTime : Nat) : MCClient :=
  match findOriginalAddress (cl.users.map (·.1)) user with
  | none => cl
  | some originalUserAddress =>
    match mapGet cl.users originalUserAddress with
    | none => cl
    | some st =>
        let historicalEntry :=
          createHistoricalDataEntry tokenToAllMidsMapping cl.latestPrices
            marginAccountValue spotBalances serverTime
        { cl with users := mapSet cl.users originalUserAddress
                             (saveHistoricalData st historicalEntry) }

/-- The source's `saveData(message)`: return early on a falsy user address; in
`'historical'` mode delegate to the historical path; otherwise append the
(possibly field-filtered) message to the matched user's raw log, modelled
by its length. -/
def saveData (cl : MCClient) (user : String) (marginAccountValue : Option ℚ)
    (spotBalances : Option (List SpotBalance)) (serverTime : Nat) : MCClient :=
  if user = "" then cl
  else if cl.dataSaveMode = "historical" then
    saveHistoricalDataClient cl user marginAccountValue spotBalances serverTime
  else
    match findOriginalAddress (cl.users.map (·.1)) user with
    | none => cl
    | some originalUserAddress =>
        let counts :=
          mapSet cl.userExistingDataCounts originalUserAddress
            ((mapGet cl.userExistingDataCounts originalUserAddress).getD 0 + 1)
        { cl with userExistingDataCounts := counts }

/-- The source's `saveLowestValueEvent(event)`: append the event to the user's raw
lowest-value log (modelled by its length) and rewrite the log file — but
only when `userLowestValueFiles` has the address, i.e. only outside
historical mode (`initializeUserData` populates that map only then) and
only for a configured address (exact case: the caller passes the raw
`data.user`). -/
def saveLowestValueEventClient (cl : MCClient) (user : String) : MCClient :=
  if cl.dataSaveMode ≠ "historical" ∧ user ∈ cl.users.map (·.1) then
    let counts :=
      mapSet cl.userExistingLowestCounts user
        ((mapGet cl.userExistingLowestCounts user).getD 0 + 1)
    { cl with userExistingLowestCounts := counts }
  else cl

/-- The source's `processWebData2Message(message, connectionId)`: if the message has a
`clearinghouseState.marginSummary`, update the per-user lowest/highest raw
trackers (keyed by the raw `data.user`); on a strictly new lowest, save a
lowest-value event — `saveLowestValueEvent` writes only when
`userLowestValueFiles` has the address, i.e. only outside historical mode
and only for a configured address. -/
def processWebData2Message (cl : MCClient) (user : String)
    (marginAccountValue : Option ℚ) : MCClient :=
  match marginAccountValue with
  | none => cl
  | some accountValue =>
    let isNewLowest :=
      match mapGet cl.userLowestAccountValues user with
      | some currentLowest => decide (accountValue < currentLowest)
      | none => true
    let cl' :=
      if isNewLowest then
        let lows := mapSet cl.userLowestAccountValues user accountValue
        let cl' := { cl with userLowestAccountValues := lows }
        saveLowestValueEventClient cl' user
      else cl
    match mapGet cl'.userHighestAccountValues user with
    | some currentHighest =>
        if currentHighest < accountValue then
          let highs := mapSet cl'.userHighestAccountValues user accountValue
          { cl' with userHighestAccountValues := highs }
        else cl'
    | none =>
        let highs := mapSet cl'.userHighestAccountValues user accountValue
        { cl' with userHighestAccountValues := highs }

/-- The source's `processAllMidsMessage(allMidsData)`: apply the price update only when
at least `allMidsUpdateInterval` (5000 ms) elapsed since the last applied
update; faster updates are discarded. -/
def processAllMidsMessage (cl : MCClient) (now : Nat)
    (mids : List (String × ℚ)) : MCClient :=
  if cl.allMidsUpdateInterval ≤ now - cl.lastAllMidsUpdate then
    { cl with latestPrices := updatePriceData cl.latestPrices mids,
              lastAllMidsUpdate := now }
  else cl

/-- The source's `handleMessage(connectionId, data)`: `none` models a payload on which
`JSON.parse` threw (the handler catches and only logs).  On a parsed
message: refresh the connection's heartbeat and bump its message counter
(when the id is known), bump the total counter, then route by channel —
`webData2` through `saveData` and `processWebData2Message`, `allMids`
through the throttled price update, anything else nowhere. -/
def handleMessage (cl : MCClient) (connectionId : String) (now : Nat)
    (parsed : Option InMessage) : MCClient :=
  match parsed with
  | none => cl
  | some message =>
    let cl' :=
      { cl with
        connections := cl.connections.map (fun p =>
          if p.1 = connectionId then
            (p.1, { p.2 with lastHeartbeat := now,
                             messagesCount := p.2.messagesCount + 1 })
          else p),
        totalMessagesReceived := cl.totalMessagesReceived + 1 }
    match message with
    | .webData2 user marginAccountValue spotBalances serverTime =>
        processWebData2Message
          (saveData cl' user marginAccountValue spotBalances serverTime)
          user marginAccountValue
    | .allMids mids => processAllMidsMessage cl' now mids
    | .other _ => cl'

/-- The source's `handleReconnect(connectionId)` at client level: apply the
per-connection step and record the scheduled timer (the source calls
`setTimeout` without retaining the handle). -/
def handleReconnectClient (cl : MCClient) (connectionId : String) : MCClient :=
  match connLookup cl connectionId with
  | none => cl
  | some c =>
      let r := handleReconnect c
      let cl' := { cl with connections := mapSet cl.connections connectionId r.1 }
      match r.2 with
      | some delay =>
          { cl' with pendingReconnects := cl'.pendingReconnects ++ [(connectionId, delay)] }
      | none => cl'

/-- The source's `disconnect()`: clear the health-check interval, then for every
connection holding a transport handle, close it, null the handle and mark
the connection disconnected.  Nothing else is touched — in particular the
reconnect timers scheduled by `handleReconnect` are anonymous `setTimeout`s
the method cannot cancel. -/
def disconnect (cl : MCClient) : MCClient :=
  { cl with
    healthCheckActive := false,
    connections := cl.connections.map (fun p =>
      if p.2.ws then (p.1, { p.2 with ws := false, isConnected := false })
      else p) }

/-- The persistence invariant of the historical mode: the on-disk files
mirror the in-memory log and lowest tracker, and the tracker is the running
minimum of the retained history. -/
def HistInv (st : UserHistState) : Prop :=
  st.historicalDataFile = st.existingHistoricalData ∧
  st.historicalLowestFile.map (·.totalAccountValue) = st.lowestTotalAccountValue ∧
  st.lowestTotalAccountValue
    = lowestOf (st.existingHistoricalData.map (·.totalAccountValue))

/-- A concrete snapshot carrying the given total, for concrete runs. -/
def sampleEntry (v : ℚ) : HistoricalEntry := ⟨v, v, [], [], 0, "entryNtl"⟩

/-- A concrete connection in the connected state, for concrete runs. -/
def sampleConnection : ConnectionInfo :=
  ⟨"conn-1", true, ["0xAbC"], true, 0, 0, "connected", 0⟩

/-- A concrete client with one connection and two configured accounts, for
concrete runs. -/
def sampleClient : MCClient :=
  ⟨[("conn-1", sampleConnection)], true, [], 0, [], 0, 5000, "continuous",
   "historical", [("0xAbC", initialUserHistState), ("0xDeF", initialUserHistState)],
   [], [], [], []⟩

/-! Supporting lemmas -/

theorem scg_nil (k : Nat) : setupConnectionGroups k [] = [] := by
  rw [setupConnectionGroups]

theorem scg_cons (k : Nat) (x : String) (xs : List String) :
    setupConnectionGroups k (x :: xs)
      = (x :: xs).take k :: setupConnectionGroups k (xs.drop (k - 1)) := by
  rw [setupConnectionGroups]

theorem scg_induction (k : Nat) (P : List String → Prop)
    (h0 : P []) (h1 : ∀ x xs, P (xs.drop (k - 1)) → P (x :: xs)) :
    ∀ xs, P xs := by
  have main : ∀ n (xs : List String), xs.length ≤ n → P xs := by
    intro n
    induction n with
    | zero =>
      intro xs h
      cases xs with
      | nil => exact h0
      | cons x xs => simp at h
    | succ n ih =>
      intro xs h
      cases xs with
      | nil => exact h0
      | cons x xs =>
        apply h1
        apply ih
        rw [List.length_drop]
        simp at h
        omega
  intro xs
  exact main xs.length xs le_rfl

theorem scg_join (k : Nat) (hk : 0 < k) (xs : List String) :
    (setupConnectionGroups k xs).flatten = xs := by
  induction xs using scg_induction k with
  | h0 => rw [scg_nil]; rfl
  | h1 x xs ih =>
    rw [scg_cons]
    obtain ⟨m, rfl⟩ : ∃ m, k = m + 1 := ⟨k - 1, by omega⟩
    rw [List.flatten_cons, ih, List.take_succ_cons]
    simp [List.take_append_drop]

theorem scg_le (k : Nat) (xs : List String) :
    ∀ g ∈ setupConnectionGroups k xs, g.length ≤ k := by
  induction xs using scg_induction k with
  | h0 => rw [scg_nil]; intro g hg; simp at hg
  | h1 x xs ih =>
    rw [scg_cons]
    intro g hg
    rcases List.mem_cons.mp hg with h | h
    · subst h; simp
    · exact ih g h

theorem scg_length (k : Nat) (hk : 0 < k) (xs : List String) :
    (setupConnectionGroups k xs).length = (xs.length + k - 1) / k := by
  induction xs using scg_induction k with
  | h0 =>
    rw [scg_nil]
    simp [Nat.div_eq_of_lt (by omega : k - 1 < k)]
  | h1 x xs ih =>
    rw [scg_cons]
    simp only [List.length_cons, ih, List.length_drop]
    rcases Nat.lt_or_ge xs.length (k - 1) with h | h
    · have h1 : xs.length - (k - 1) = 0 := by omega
      rw [h1]
      have h2 : (0 + k - 1) / k = 0 := Nat.div_eq_of_lt (by omega)
      rw [h2]
      have h3 : xs.length + 1 + k - 1 = xs.length + k := by omega
      rw [h3]
      rw [Nat.add_div_right _ hk, Nat.div_eq_of_lt (by omega)]
    · have h3 : xs.length - (k - 1) + k - 1 = xs.length := by omega
      rw [h3]
      have h4 : xs.length + 1 + k - 1 = xs.length + k := by omega
      rw [h4, Nat.add_div_right _ hk]

theorem scg_get (k : Nat) (hk : 0 < k) (xs : List String) :
    ∀ i < (setupConnectionGroups k xs).length,
      (setupConnectionGroups k xs).get? i = some ((xs.drop (i * k)).take k) := by
  induction xs using scg_induction k with
  | h0 => rw [scg_nil]; intro i hi; simp at hi
  | h1 x xs ih =>
    rw [scg_cons]
    intro i hi
    cases i with
    | zero => simp
    | succ i =>
      simp only [List.get?_cons_succ]
      rw [List.length_cons] at hi
      rw [ih i (by omega)]
      congr 2
      rw [List.drop_drop]
      obtain ⟨m, rfl⟩ : ∃ m, k = m + 1 := ⟨k - 1, by omega⟩
      have : (i + 1) * (m + 1) = (i * (m + 1) + m) + 1 := by ring
      rw [this, List.drop_succ_cons]
      congr 1
      omega

theorem lowestOf_append_singleton (vs : List ℚ) (v : ℚ) :
    lowestOf (vs ++ [v])
      = some ((lowestOf vs).elim v (fun m => min m v)) := by
  unfold lowestOf
  rw [List.foldl_append]
  cases List.foldl (fun acc v => match acc with
    | none => some v
    | some m => some (min m v)) none vs <;> rfl

theorem saveHistoricalData_fields (st : UserHistState) (e : HistoricalEntry) :
    (saveHistoricalData st e).existingHistoricalData
        = st.existingHistoricalData ++ [e] ∧
    (saveHistoricalData st e).historicalDataFile
        = st.existingHistoricalData ++ [e] ∧
    (saveHistoricalData st e).lowestTotalAccountValue
        = some ((st.lowestTotalAccountValue).elim e.totalAccountValue
            (fun m => min m e.totalAccountValue)) ∧
    (saveHistoricalData st e).historicalLowestFile
        = (match st.lowestTotalAccountValue with
           | none => some e
           | some m =>
               if e.totalAccountValue < m then some e
               else st.historicalLowestFile) := by
  obtain ⟨d, l, f, lf⟩ := st
  unfold saveHistoricalData
  cases l with
  | none => exact ⟨rfl, rfl, rfl, rfl⟩
  | some m =>
    dsimp only
    by_cases hlt : e.totalAccountValue < m
    · rw [if_pos hlt, if_pos hlt]
      refine ⟨rfl, rfl, ?_, rfl⟩
      dsimp [Option.elim]
      rw [min_eq_right hlt.le]
    · rw [if_neg hlt, if_neg hlt]
      refine ⟨rfl, rfl, ?_, rfl⟩
      dsimp [Option.elim]
      rw [min_eq_left (not_lt.mp hlt)]

theorem saveHistoricalData_inv {st : UserHistState} (h : HistInv st)
    (e : HistoricalEntry) :
    HistInv (saveHistoricalData st e) ∧
    (saveHistoricalData st e).existingHistoricalData
      = st.existingHistoricalData ++ [e] := by
  obtain ⟨h1, h2, h3⟩ := h
  obtain ⟨f1, f2, f3, f4⟩ := saveHistoricalData_fields st e
  refine ⟨⟨by rw [f1, f2], ?_, ?_⟩, f1⟩
  · rw [f3, f4]
    cases hL : st.lowestTotalAccountValue with
    | none => rfl
    | some m =>
      dsimp only
      by_cases hlt : e.totalAccountValue < m
      · simp only [if_pos hlt, Option.map_some', Option.elim]
        rw [min_eq_right hlt.le]
      · simp only [if_neg hlt, Option.elim]
        rw [hL] at h2
        rw [h2, min_eq_left (not_lt.mp hlt)]
  · rw [f1, f3]
    simp only [List.map_append, List.map_cons, List.map_nil]
    rw [lowestOf_append_singleton, ← h3]

theorem restart_eq {st : UserHistState} (h : HistInv st) :
    restartUserHistState st = st := by
  obtain ⟨h1, h2, h3⟩ := h
  cases st
  simp_all [restartUserHistState, loadExistingData]

theorem foldl_save_inv {st : UserHistState} (h : HistInv st)
    (seg : List HistoricalEntry) :
    HistInv (seg.foldl saveHistoricalData st) ∧
    (seg.foldl saveHistoricalData st).existingHistoricalData
      = st.existingHistoricalData ++ seg := by
  induction seg generalizing st with
  | nil => simpa using h
  | cons e seg ih =>
    rw [List.foldl_cons]
    obtain ⟨hinv, hdata⟩ := saveHistoricalData_inv h e
    obtain ⟨hinv', hdata'⟩ := ih hinv
    exact ⟨hinv', by rw [hdata', hdata, List.append_assoc]; rfl⟩

theorem runSegments_inv (segments : List (List HistoricalEntry)) :
    HistInv (runSegments segments) ∧
    (runSegments segments).existingHistoricalData = segments.flatten := by
  unfold runSegments
  have base : HistInv initialUserHistState := ⟨rfl, rfl, rfl⟩
  have main : ∀ (segs : List (List HistoricalEntry)) (st : UserHistState),
      HistInv st →
      HistInv (segs.foldl (fun st seg => seg.foldl saveHistoricalData (restartUserHistState st)) st) ∧
      (segs.foldl (fun st seg => seg.foldl saveHistoricalData (restartUserHistState st)) st).existingHistoricalData
        = st.existingHistoricalData ++ segs.flatten := by
    intro segs
    induction segs with
    | nil => intro st h; simpa using h
    | cons seg segs ih =>
      intro st h
      rw [List.foldl_cons]
      rw [restart_eq h]
      obtain ⟨hinv, hdata⟩ := foldl_save_inv h seg
      obtain ⟨hinv', hdata'⟩ := ih _ hinv
      refine ⟨hinv', ?_⟩
      rw [hdata', hdata, List.flatten_cons, List.append_assoc]
  have res := main segments _ base
  exact ⟨res.1, by simpa [initialUserHistState] using res.2⟩

theorem lowestOf_foldl_le (ys : List ℚ) :
    ∀ (acc : Option ℚ) (v : ℚ), acc = some v →
      ∃ w, ys.foldl (fun acc v => match acc with
        | none => some v
        | some m => some (min m v)) acc = some w ∧ w ≤ v := by
  induction ys with
  | nil => intro acc v h; exact ⟨v, by simp [h], le_rfl⟩
  | cons y ys ih =>
    intro acc v h
    subst h
    obtain ⟨w, hw, hle⟩ := ih (some (min v y)) (min v y) rfl
    exact ⟨w, by simpa using hw, hle.trans (min_le_left _ _)⟩

theorem lowestOf_append_le {xs : List ℚ} {v : ℚ} (h : lowestOf xs = some v)
    (ys : List ℚ) : ∃ w, lowestOf (xs ++ ys) = some w ∧ w ≤ v := by
  unfold lowestOf at *
  rw [List.foldl_append]
  exact lowestOf_foldl_le ys _ v h

theorem mapGet_cons {α : Type} (q : String × α) (l : List (String × α)) (k : String) :
    mapGet (q :: l) k = if q.1 = k then some q.2 else mapGet l k := by
  unfold mapGet
  by_cases h : q.1 = k
  · rw [List.find?_cons_of_pos _ (by simpa using h), if_pos h]
    rfl
  · rw [List.find?_cons_of_neg _ (by simpa using h), if_neg h]

theorem mapGet_update_self {α : Type} (l : List (String × α)) (k : String) (f : α → α) :
    mapGet (l.map (fun p => if p.1 = k then (p.1, f p.2) else p)) k
      = (mapGet l k).map f := by
  induction l with
  | nil => rfl
  | cons q l ih =>
    rw [List.map_cons]
    by_cases h : q.1 = k
    · rw [if_pos h, mapGet_cons, mapGet_cons, if_pos h, if_pos h]
      rfl
    · rw [if_neg h, mapGet_cons, mapGet_cons, if_neg h, if_neg h]
      exact ih

theorem mapGet_update_ne {α : Type} (l : List (String × α)) (k id : String)
    (f : α → α) (h : id ≠ k) :
    mapGet (l.map (fun p => if p.1 = k then (p.1, f p.2) else p)) id
      = mapGet l id := by
  induction l with
  | nil => rfl
  | cons q l ih =>
    rw [List.map_cons]
    by_cases hq : q.1 = k
    · have hqi : q.1 ≠ id := by rw [hq]; exact fun e => h e.symm
      rw [if_pos hq, mapGet_cons, mapGet_cons, if_neg hqi, if_neg hqi]
      exact ih
    · rw [if_neg hq, mapGet_cons, mapGet_cons]
      by_cases hqi : q.1 = id
      · rw [if_pos hqi, if_pos hqi]
      · rw [if_neg hqi, if_neg hqi]
        exact ih

theorem mapGet_mapSet_ne {α : Type} (m : List (String × α)) (k id : String)
    (v : α) (h : id ≠ k) : mapGet (mapSet m k v) id = mapGet m id := by
  unfold mapSet
  by_cases hc : m.any (fun p => p.1 = k)
  · rw [if_pos hc]
    clear hc
    induction m with
    | nil => rfl
    | cons q l ih =>
      rw [List.map_cons]
      by_cases hq : q.1 = k
      · have h1 : k ≠ id := fun e => h e.symm
        have h2 : q.1 ≠ id := by rw [hq]; exact h1
        rw [if_pos hq, mapGet_cons, mapGet_cons, if_neg h1, if_neg h2]
        exact ih
      · rw [if_neg hq, mapGet_cons, mapGet_cons]
        by_cases hqi : q.1 = id
        · rw [if_pos hqi, if_pos hqi]
        · rw [if_neg hqi, if_neg hqi]
          exact ih
  · rw [if_neg hc]
    clear hc
    induction m with
    | nil =>
      rw [List.nil_append, mapGet_cons]
      have : k ≠ id := fun e => h e.symm
      rw [if_neg this]
    | cons q l ih =>
      rw [List.cons_append, mapGet_cons, mapGet_cons]
      by_cases hqi : q.1 = id
      · rw [if_pos hqi, if_pos hqi]
      · rw [if_neg hqi, if_neg hqi]
        exact ih

theorem saveLowestValueEventClient_frame (cl : MCClient) (user : String) :
    (saveLowestValueEventClient cl user).connections = cl.connections ∧
    (saveLowestValueEventClient cl user).totalMessagesReceived
      = cl.totalMessagesReceived := by
  unfold saveLowestValueEventClient
  split <;> exact ⟨rfl, rfl⟩

theorem saveHistoricalDataClient_frame (cl : MCClient) (user : String)
    (marginAccountValue : Option ℚ) (spotBalances : Option (List SpotBalance))
    (serverTime : Nat) :
    (saveHistoricalDataClient cl user marginAccountValue spotBalances
        serverTime).connections = cl.connections ∧
    (saveHistoricalDataClient cl user marginAccountValue spotBalances
        serverTime).totalMessagesReceived = cl.totalMessagesReceived := by
  unfold saveHistoricalDataClient
  split
  · exact ⟨rfl, rfl⟩
  · split <;> exact ⟨rfl, rfl⟩

theorem saveData_frame (cl : MCClient) (user : String)
    (marginAccountValue : Option ℚ) (spotBalances : Option (List SpotBalance))
    (serverTime : Nat) :
    (saveData cl user marginAccountValue spotBalances serverTime).connections
      = cl.connections ∧
    (saveData cl user marginAccountValue spotBalances serverTime).totalMessagesReceived
      = cl.totalMessagesReceived := by
  unfold saveData
  split
  · exact ⟨rfl, rfl⟩
  · split
    · exact saveHistoricalDataClient_frame cl user marginAccountValue spotBalances serverTime
    · split
      · exact ⟨rfl, rfl⟩
      · exact ⟨rfl, rfl⟩

theorem processWebData2Message_frame (cl : MCClient) (user : String)
    (marginAccountValue : Option ℚ) :
    (processWebData2Message cl user marginAccountValue).connections
      = cl.connections ∧
    (processWebData2Message cl user marginAccountValue).totalMessagesReceived
      = cl.totalMessagesReceived := by
  unfold processWebData2Message
  cases marginAccountValue with
  | none => exact ⟨rfl, rfl⟩
  | some accountValue =>
    dsimp only
    have hinner : ∀ b : Bool,
        ((if b then
            saveLowestValueEventClient
              { cl with userLowestAccountValues :=
                  mapSet cl.userLowestAccountValues user accountValue } user
          else cl)).connections = cl.connections ∧
        ((if b then
            saveLowestValueEventClient
              { cl with userLowestAccountValues :=
                  mapSet cl.userLowestAccountValues user accountValue } user
          else cl)).totalMessagesReceived = cl.totalMessagesReceived := by
      intro b
      cases b with
      | false => exact ⟨rfl, rfl⟩
      | true =>
        simpa using saveLowestValueEventClient_frame
          { cl with userLowestAccountValues :=
              mapSet cl.userLowestAccountValues user accountValue } user
    split <;> · first
      | (split
         · exact hinner _
         · exact hinner _)
      | exact hinner _

theorem processAllMidsMessage_frame (cl : MCClient) (now : Nat)
    (mids : List (String × ℚ)) :
    (processAllMidsMessage cl now mids).connections = cl.connections ∧
    (processAllMidsMessage cl now mids).totalMessagesReceived
      = cl.totalMessagesReceived := by
  unfold processAllMidsMessage
  split <;> exact ⟨rfl, rfl⟩

/-- C10: on a parsed message `handleMessage` refreshes the connection's
heartbeat and bumps the per-connection and total message counters whatever
the channel is; an unrecognised channel changes nothing else; an unparsable
payload changes nothing at all. -/
theorem handleMessage_frame (cl : MCClient) (connectionId : String) (now : Nat) :
    handleMessage cl connectionId now none = cl ∧
    (∀ message : InMessage,
      (handleMessage cl connectionId now (some message)).totalMessagesReceived
          = cl.totalMessagesReceived + 1 ∧
      connLookup (handleMessage cl connectionId now (some message)) connectionId
          = (connLookup cl connectionId).map
              (fun c => { c with lastHeartbeat := now,
                                 messagesCount := c.messagesCount + 1 }) ∧
      (∀ id, id ≠ connectionId →
        connLookup (handleMessage cl connectionId now (some message)) id
          = connLookup cl id)) ∧
    (∀ channel : String,
      (handleMessage cl connectionId now (some (.other channel))).latestPrices
          = cl.latestPrices ∧
      (handleMessage cl connectionId now (some (.other channel))).lastAllMidsUpdate
          = cl.lastAllMidsUpdate ∧
      (handleMessage cl connectionId now (some (.other channel))).users = cl.users ∧
      (handleMessage cl connectionId now
          (some (.other channel))).userLowestAccountValues
        = cl.userLowestAccountValues ∧
      (handleMessage cl connectionId now
          (some (.other channel))).userHighestAccountValues
        = cl.userHighestAccountValues ∧
      (handleMessage cl connectionId now
          (some (.other channel))).userExistingDataCounts
        = cl.userExistingDataCounts ∧
      (handleMessage cl connectionId now
          (some (.other channel))).userExistingLowestCounts
        = cl.userExistingLowestCounts ∧
      (handleMessage cl connectionId now (some (.other channel))).pendingReconnects
        = cl.pendingReconnects ∧
      (handleMessage cl connectionId now (some (.other channel))).healthCheckActive
        = cl.healthCheckActive) := by
  have hupd : ∀ message : InMessage,
      (handleMessage cl connectionId now (some message)).connections
        = cl.connections.map (fun p =>
            if p.1 = connectionId then
              (p.1, { p.2 with lastHeartbeat := now,
                               messagesCount := p.2.messagesCount + 1 })
            else p) ∧
      (handleMessage cl connectionId now (some message)).totalMessagesReceived
        = cl.totalMessagesReceived + 1 := by
    intro message
    cases message with
    | webData2 user marginAccountValue spotBalances serverTime =>
      unfold handleMessage
      dsimp only
      obtain ⟨hw1, hw2⟩ := processWebData2Message_frame
        (saveData { cl with
            connections := cl.connections.map (fun p =>
              if p.1 = connectionId then
                (p.1, { p.2 with lastHeartbeat := now,
                                 messagesCount := p.2.messagesCount + 1 })
              else p),
            totalMessagesReceived := cl.totalMessagesReceived + 1 }
          user marginAccountValue spotBalances serverTime) user marginAccountValue
      obtain ⟨hs1, hs2⟩ := saveData_frame { cl with
            connections := cl.connections.map (fun p =>
              if p.1 = connectionId then
                (p.1, { p.2 with lastHeartbeat := now,
                                 messagesCount := p.2.messagesCount + 1 })
              else p),
            totalMessagesReceived := cl.totalMessagesReceived + 1 }
          user marginAccountValue spotBalances serverTime
      exact ⟨hw1.trans hs1, hw2.trans hs2⟩
    | allMids mids =>
      unfold handleMessage
      dsimp only
      obtain ⟨h1, h2⟩ := processAllMidsMessage_frame { cl with
            connections := cl.connections.map (fun p =>
              if p.1 = connectionId then
                (p.1, { p.2 with lastHeartbeat := now,
                                 messagesCount := p.2.messagesCount + 1 })
              else p),
            totalMessagesReceived := cl.totalMessagesReceived + 1 } now mids
      exact ⟨h1, h2⟩
    | other channel => exact ⟨rfl, rfl⟩
  refine ⟨rfl, ?_, ?_⟩
  · intro message
    obtain ⟨h1, h2⟩ := hupd message
    refine ⟨h2, ?_, ?_⟩
    · unfold connLookup
      rw [h1]
      exact mapGet_update_self cl.connections connectionId
        (fun c => { c with lastHeartbeat := now,
                           messagesCount := c.messagesCount + 1 })
    · intro id hid
      unfold connLookup
      rw [h1]
      exact mapGet_update_ne cl.connections connectionId id
        (fun c => { c with lastHeartbeat := now,
                           messagesCount := c.messagesCount + 1 }) hid
  · intro channel
    exact ⟨rfl, rfl, rfl, rfl, rfl, rfl, rfl, rfl, rfl⟩


theorem handleReconnect_lt {c : ConnectionInfo}
    (h : c.reconnectAttempts < MAX_RECONNECT_ATTEMPTS) :
    handleReconnect c
      = ({ c with reconnectAttempts := c.reconnectAttempts + 1,
                  status := "reconnecting" },
         some (RECONNECT_DELAY_MS * 2 ^ c.reconnectAttempts)) := by
  unfold handleReconnect
  rw [if_pos h]
  dsimp only
  rw [Nat.add_sub_cancel]

theorem handleReconnect_ge {c : ConnectionInfo}
    (h : MAX_RECONNECT_ATTEMPTS ≤ c.reconnectAttempts) :
    handleReconnect c = ({ c with status := "disconnected" }, none) := by
  unfold handleReconnect
  rw [if_neg (by omega)]

/-- C7: reconnect attempts below the maximum schedule a delay of
`RECONNECT_DELAY_MS * 2^(attempt - 1)` (5000, 10000, 20000, 40000, 80000 ms
for attempts 1..5) while incrementing the counter; once the counter has
reached `MAX_RECONNECT_ATTEMPTS = 5` nothing more is scheduled and the
connection stays disconnected; a successful open resets the counter to 0. -/
theorem handleReconnect_spec (c : ConnectionInfo) :
    (c.reconnectAttempts < MAX_RECONNECT_ATTEMPTS →
        handleReconnect c
          = ({ c with reconnectAttempts := c.reconnectAttempts + 1,
                      status := "reconnecting" },
             some (RECONNECT_DELAY_MS * 2 ^ c.reconnectAttempts))) ∧
    (MAX_RECONNECT_ATTEMPTS ≤ c.reconnectAttempts →
        handleReconnect c = ({ c with status := "disconnected" }, none) ∧
        (handleReconnect c).1.isConnected = c.isConnected) ∧
    (∀ now, (wsOpenHandler c now).reconnectAttempts = 0) ∧
    (List.range MAX_RECONNECT_ATTEMPTS).map (fun n => RECONNECT_DELAY_MS * 2 ^ n)
        = [5000, 10000, 20000, 40000, 80000] := by
  refine ⟨fun h => handleReconnect_lt h, fun h => ⟨handleReconnect_ge h, ?_⟩,
    fun now => rfl, by decide⟩
  rw [handleReconnect_ge h]

theorem handleReconnect_spec_witness :
    (handleReconnect { sampleConnection with reconnectAttempts := 2 }).2
      = some 20000 := by
  have h := (handleReconnect_spec { sampleConnection with reconnectAttempts := 2 }).1
    (by decide)
  rw [h]
  decide

/-- C8 (amended): an unhealthy connection (`isConnected` and silent for more
than twice the health-check interval) is, in continuous mode, forced to
`isConnected = false` and put through the reconnect path (scheduling a
backoff delay while attempts remain); in `oneOff` mode the health check
leaves the connection completely unchanged — it is *not* forced to
disconnected — and schedules nothing. -/
theorem performHealthCheck_spec (now : Nat) (c : ConnectionInfo)
    (hconn : c.isConnected = true)
    (hstale : HEALTH_CHECK_INTERVAL * 2 < now - c.lastHeartbeat) :
    ((performHealthCheckConn "continuous" now c).1.isConnected = false ∧
     (c.reconnectAttempts < MAX_RECONNECT_ATTEMPTS →
        (performHealthCheckConn "continuous" now c).2
          = some (RECONNECT_DELAY_MS * 2 ^ c.reconnectAttempts)) ∧
     (MAX_RECONNECT_ATTEMPTS ≤ c.reconnectAttempts →
        (performHealthCheckConn "continuous" now c).2 = none)) ∧
    performHealthCheckConn "oneOff" now c = (c, none) := by
  have hc2 : decide (HEALTH_CHECK_INTERVAL * 2 < now - c.lastHeartbeat) = true :=
    decide_eq_true hstale
  unfold performHealthCheckConn
  rw [hconn, hc2]
  simp only [Bool.and_self, if_true]
  refine ⟨⟨?_, ?_, ?_⟩, rfl⟩
  · by_cases h : c.reconnectAttempts < MAX_RECONNECT_ATTEMPTS
    · rw [handleReconnect_lt
        (show ({ c with isConnected := false }).reconnectAttempts
            < MAX_RECONNECT_ATTEMPTS from h)]
    · rw [handleReconnect_ge
        (show MAX_RECONNECT_ATTEMPTS
            ≤ ({ c with isConnected := false }).reconnectAttempts
          from not_lt.mp h)]
  · intro h
    rw [handleReconnect_lt
      (show ({ c with isConnected := false }).reconnectAttempts
          < MAX_RECONNECT_ATTEMPTS from h)]
  · intro h
    rw [handleReconnect_ge
      (show MAX_RECONNECT_ATTEMPTS
          ≤ ({ c with isConnected := false }).reconnectAttempts from h)]

theorem performHealthCheck_spec_witness :
    (performHealthCheckConn "continuous" 70000 sampleConnection).1.isConnected
        = false ∧
    performHealthCheckConn "oneOff" 70000 sampleConnection
        = (sampleConnection, none) := by
  have h := performHealthCheck_spec 70000 sampleConnection rfl (by decide)
  exact ⟨h.1.1, h.2⟩

/-- C8 counterexample: the claim says an unhealthy connection is forced to
`disconnected` in both modes; in `oneOff` mode the code leaves
`isConnected = true` (it only skips the reconnect path). -/
theorem performHealthCheck_oneOff_counterexample :
    sampleConnection.isConnected = true ∧
    HEALTH_CHECK_INTERVAL * 2 < 70000 - sampleConnection.lastHeartbeat ∧
    (performHealthCheckConn "oneOff" 70000 sampleConnection).1.isConnected
      = true := by
  exact ⟨rfl, by decide, rfl⟩

/-- C9 (amended): `disconnect` cancels the health-check timer, closes every
connection that holds a transport handle and marks it disconnected — but it
does NOT cancel pending reconnect timers (the source retains no handle to
its reconnect `setTimeout`s), so a reconnect scheduled before shutdown can
still fire afterwards. -/
theorem disconnect_spec (cl : MCClient) :
    (disconnect cl).healthCheckActive = false ∧
    (∀ p ∈ (disconnect cl).connections, p.2.ws = false) ∧
    (∀ p ∈ cl.connections, p.2.ws = true →
        (p.1, { p.2 with ws := false, isConnected := false })
          ∈ (disconnect cl).connections) ∧
    (disconnect cl).pendingReconnects = cl.pendingReconnects := by
  refine ⟨rfl, ?_, ?_, rfl⟩
  · intro p hp
    unfold disconnect at hp
    simp only [List.mem_map] at hp
    obtain ⟨q, hq, rfl⟩ := hp
    cases hw : q.2.ws with
    | false => simp [hw]
    | true => simp [hw]
  · intro p hp hws
    unfold disconnect
    simp only [List.mem_map]
    exact ⟨p, hp, by rw [if_pos hws]⟩

theorem disconnect_spec_witness :
    (disconnect sampleClient).healthCheckActive = false ∧
    ("conn-1", { sampleConnection with ws := false, isConnected := false })
        ∈ (disconnect sampleClient).connections := by
  have h := disconnect_spec sampleClient
  exact ⟨h.1, h.2.2.1 ("conn-1", sampleConnection) (by decide) rfl⟩

/-- C9 counterexample: the claim says shutdown cancels any pending reconnect
timer; after scheduling a reconnect for `conn-1` (5000 ms backoff),
`disconnect` leaves that timer pending. -/
theorem disconnect_counterexample :
    (disconnect (handleReconnectClient sampleClient "conn-1")).pendingReconnects
      = [("conn-1", 5000)] := by
  decide

/-- C2: grouping `N` accounts with at most `K > 0` per connection yields
`⌈N/K⌉` connections of at most `K` accounts each, whose concatenation in
order is exactly the input list (so every account lands in exactly one
connection, the first `K` in connection 1, the next `K` in connection 2,
and so on); an empty account list yields zero connections. -/
theorem setupConnectionGroups_spec (userAddresses : List String) (k : Nat)
    (hk : 0 < k) :
    (setupConnectionGroups k userAddresses).length
        = (userAddresses.length + k - 1) / k ∧
    (∀ g ∈ setupConnectionGroups k userAddresses, g.length ≤ k) ∧
    (setupConnectionGroups k userAddresses).flatten = userAddresses ∧
    (∀ i < (setupConnectionGroups k userAddresses).length,
        (setupConnectionGroups k userAddresses).get? i
          = some ((userAddresses.drop (i * k)).take k)) ∧
    (userAddresses = [] → setupConnectionGroups k userAddresses = []) :=
  ⟨scg_length k hk userAddresses, scg_le k userAddresses,
   scg_join k hk userAddresses, scg_get k hk userAddresses,
   fun h => by rw [h, scg_nil]⟩

theorem setupConnectionGroups_spec_witness :
    setupConnectionGroups MAX_USERS_PER_CONNECTION ["a", "b", "c", "d"]
        = [["a", "b", "c"], ["d"]] ∧
    (setupConnectionGroups MAX_USERS_PER_CONNECTION ["a", "b", "c", "d"]).length
        = (4 + MAX_USERS_PER_CONNECTION - 1) / MAX_USERS_PER_CONNECTION := by
  constructor
  · simp [scg_cons, scg_nil, MAX_USERS_PER_CONNECTION]
  · exact (setupConnectionGroups_spec ["a", "b", "c", "d"]
      MAX_USERS_PER_CONNECTION (by decide)).1

/-- C1: over any multi-restart run, the persisted lowest file holds exactly
the minimum `totalAccountValue` of the entire retained history, it agrees
with the in-memory tracker, and it can only decrease: both under one more
`saveHistoricalData` step and under any continuation of the run by further
restarts and segments. -/
theorem runSegments_lowest_spec (segments : List (List HistoricalEntry)) :
    (runSegments segments).historicalLowestFile.map (·.totalAccountValue)
        = lowestOf ((segments.flatten).map (·.totalAccountValue)) ∧
    (runSegments segments).lowestTotalAccountValue
        = (runSegments segments).historicalLowestFile.map (·.totalAccountValue) ∧
    (∀ (e : HistoricalEntry) (v : ℚ),
        (runSegments segments).lowestTotalAccountValue = some v →
        ∃ w, (saveHistoricalData (runSegments segments) e).lowestTotalAccountValue
              = some w ∧ w ≤ v) ∧
    (∀ (more : List (List HistoricalEntry)) (v w : ℚ),
        (runSegments segments).lowestTotalAccountValue = some v →
        (runSegments (segments ++ more)).lowestTotalAccountValue = some w →
        w ≤ v) := by
  obtain ⟨⟨h1, h2, h3⟩, hdata⟩ := runSegments_inv segments
  refine ⟨?_, h2.symm, ?_, ?_⟩
  · rw [h2, h3, hdata]
  · intro e v hv
    obtain ⟨f1, f2, f3, f4⟩ := saveHistoricalData_fields (runSegments segments) e
    refine ⟨min v e.totalAccountValue, ?_, min_le_left _ _⟩
    rw [f3, hv]
    rfl
  · intro more v w hv hw
    obtain ⟨⟨g1, g2, g3⟩, gdata⟩ := runSegments_inv (segments ++ more)
    rw [h3, hdata] at hv
    rw [g3, gdata, List.flatten_append, List.map_append] at hw
    obtain ⟨w', hw', hle⟩ :=
      lowestOf_append_le hv (more.flatten.map (·.totalAccountValue))
    rw [hw'] at hw
    obtain rfl : w' = w := Option.some.inj hw
    exact hle

theorem runSegments_lowest_spec_witness : (2 : ℚ) ≤ 3 := by
  refine (runSegments_lowest_spec [[sampleEntry 3, sampleEntry 7]]).2.2.2
    [[sampleEntry 2]] 3 2 ?_ ?_
  · with_unfolding_all decide
  · with_unfolding_all decide

/-- C3 (amended): with the spec's margin value and balances and an *empty*
price cache, the snapshot totals 1240 (1000 + 50×1 + 190 fallback notional)
with the fallback flag `entryNtl`; in general `priceSource` records only
whether the live-price path was enabled (`allMids` subscribed and a
non-empty cache) — it is `entryNtl` exactly when the cache is empty, and is
NOT sensitive to individual assets falling back to their notional value. -/
theorem fallbackValuation_spec :
    ((createHistoricalDataEntry tokenToAllMidsMapping [] (some 1000)
        (some [⟨"USDC", 50, none⟩, ⟨"USOL", 2, some 190⟩]) 0).totalAccountValue
        = 1240 ∧
     (createHistoricalDataEntry tokenToAllMidsMapping [] (some 1000)
        (some [⟨"USDC", 50, none⟩, ⟨"USOL", 2, some 190⟩]) 0).priceSource
        = "entryNtl" ∧
     (createHistoricalDataEntry tokenToAllMidsMapping [] (some 1000)
        (some [⟨"USDC", 50, none⟩, ⟨"USOL", 2, some 190⟩]) 0).pricesUsed
        = [("USDC", .price 1), ("USOL", .entryNtlMark 190)]) ∧
    (∀ (aliases : List (String × String)) (latestPrices : PriceCache)
        (marginAccountValue : Option ℚ)
        (spotBalances : Option (List SpotBalance)) (serverTime : Nat),
      (createHistoricalDataEntry aliases latestPrices marginAccountValue
          spotBalances serverTime).priceSource
        = if latestPrices.length = 0 then "entryNtl" else "currentPrices") := by
  refine ⟨by with_unfolding_all decide, ?_⟩
  intro aliases latestPrices marginAccountValue spotBalances serverTime
  unfold createHistoricalDataEntry
  cases latestPrices with
  | nil => rfl
  | cons p latestPrices =>
    have hb : decide (0 < (p :: latestPrices).length) = true :=
      decide_eq_true (by simp)
    simp only [hb, Bool.and_true]
    rfl

/-- C3 counterexample: a snapshot in which the valued non-stable asset USOL
had no live price (its `pricesUsed` entry is the `entryNtl:` fallback
marker) yet whose `priceSource` flag is the live marker `currentPrices`,
because an unrelated coin sits in the cache — refuting the claim that the
flag is `live` only when every valued non-stable asset had a live price. -/
theorem fallbackValuation_counterexample :
    (createHistoricalDataEntry tokenToAllMidsMapping [("BTC", 50000)]
        (some 1000) (some [⟨"USDC", 50, none⟩, ⟨"USOL", 2, some 190⟩]) 0).pricesUsed
      = [("USDC", .price 1), ("USOL", .entryNtlMark 190)] ∧
    (createHistoricalDataEntry tokenToAllMidsMapping [("BTC", 50000)]
        (some 1000) (some [⟨"USDC", 50, none⟩, ⟨"USOL", 2, some 190⟩]) 0).priceSource
      = "currentPrices" ∧
    (createHistoricalDataEntry tokenToAllMidsMapping [("BTC", 50000)]
        (some 1000) (some [⟨"USDC", 50, none⟩, ⟨"USOL", 2, some 190⟩]) 0).totalAccountValue
      = 1240 := by
  with_unfolding_all decide

/-- C4: with `SOL → 100` cached and the static alias `USOL → SOL`, the
snapshot totals 1250 (1000 + 50 + 2×100) with the live `currentPrices`
flag and live prices recorded for both assets; and `getSpotTokenPrice`
first special-cases USDC at 1.0, then resolves through the alias table,
then falls back to a direct cache lookup. -/
theorem liveValuation_spec :
    ((createHistoricalDataEntry tokenToAllMidsMapping [("SOL", 100)] (some 1000)
        (some [⟨"USDC", 50, none⟩, ⟨"USOL", 2, some 190⟩]) 0).totalAccountValue
        = 1250 ∧
     (createHistoricalDataEntry tokenToAllMidsMapping [("SOL", 100)] (some 1000)
        (some [⟨"USDC", 50, none⟩, ⟨"USOL", 2, some 190⟩]) 0).priceSource
        = "currentPrices" ∧
     (createHistoricalDataEntry tokenToAllMidsMapping [("SOL", 100)] (some 1000)
        (some [⟨"USDC", 50, none⟩, ⟨"USOL", 2, some 190⟩]) 0).pricesUsed
        = [("USDC", .price 1), ("USOL", .price 100)]) ∧
    mapGet tokenToAllMidsMapping "USOL" = some "SOL" ∧
    (∀ (aliases : List (String × String)) (latestPrices : PriceCache),
        getSpotTokenPrice aliases latestPrices "USDC" = some 1) ∧
    (∀ (aliases : List (String × String)) (latestPrices : PriceCache)
        (spotCoin : String), spotCoin ≠ "USDC" →
      getSpotTokenPrice aliases latestPrices spotCoin
        = (match mapGet aliases spotCoin with
           | some allMidsKey => getTokenPrice latestPrices allMidsKey
           | none => getTokenPrice latestPrices spotCoin)) := by
  refine ⟨by with_unfolding_all decide, by decide, ?_, ?_⟩
  · intro aliases latestPrices
    unfold getSpotTokenPrice
    rw [if_pos rfl]
  · intro aliases latestPrices spotCoin h
    unfold getSpotTokenPrice
    rw [if_neg h]

theorem liveValuation_spec_witness :
    getSpotTokenPrice tokenToAllMidsMapping [("SOL", (100 : ℚ))] "USOL"
      = some 100 := by
  have h := liveValuation_spec.2.2.2 tokenToAllMidsMapping [("SOL", (100 : ℚ))]
    "USOL" (by decide)
  rw [h]
  with_unfolding_all decide

/-- C5 (amended): when the margin-summary account value is absent the engine
does not signal any error and does not drop the message — the chain
`clearinghouseState?.marginSummary?.accountValue || '0'` silently
substitutes zero, a snapshot is still produced and appended, and only the
matched account's state changes (other accounts are unaffected). -/
theorem missingMarginField_spec (aliases : List (String × String))
    (latestPrices : PriceCache) (spotBalances : Option (List SpotBalance))
    (serverTime : Nat) :
    (createHistoricalDataEntry aliases latestPrices none spotBalances serverTime
        = createHistoricalDataEntry aliases latestPrices (some 0) spotBalances
            serverTime) ∧
    (∀ st : UserHistState,
        (saveHistoricalData st (createHistoricalDataEntry aliases latestPrices
            none spotBalances serverTime)).existingHistoricalData
          = st.existingHistoricalData
              ++ [createHistoricalDataEntry aliases latestPrices none
                    spotBalances serverTime]) ∧
    (∀ (cl : MCClient) (user otherUser : String),
        toLowerCase otherUser ≠ toLowerCase user →
        mapGet (saveHistoricalDataClient cl user none spotBalances
            serverTime).users otherUser
          = mapGet cl.users otherUser) := by
  refine ⟨rfl, fun st => (saveHistoricalData_fields st _).1, ?_⟩
  intro cl user other hne
  unfold saveHistoricalDataClient
  cases hf : findOriginalAddress (cl.users.map (·.1)) user with
  | none => rfl
  | some orig =>
    dsimp only
    have horig : toLowerCase orig = toLowerCase user := by
      unfold findOriginalAddress at hf
      have := List.find?_some hf
      simpa using this
    cases hg : mapGet cl.users orig with
    | none => rfl
    | some st =>
      dsimp only
      apply mapGet_mapSet_ne
      intro he
      exact hne (by rw [he]; exact horig)

theorem missingMarginField_spec_witness :
    mapGet (saveHistoricalDataClient sampleClient "0xabc" none (some []) 0).users
        "0xDeF"
      = mapGet sampleClient.users "0xDeF" := by
  exact (missingMarginField_spec tokenToAllMidsMapping [] (some []) 0).2.2
    sampleClient "0xabc" "0xDeF" (by decide)

/-- C5 counterexample: a `webData2` message with no
`clearinghouseState.marginSummary.accountValue` is *not* dropped: the
valuation engine returns a snapshot (margin component defaulted to 0,
total from the spot balances alone) and persistence appends it. -/
theorem missingMarginField_counterexample :
    (saveHistoricalData initialUserHistState
        (createHistoricalDataEntry tokenToAllMidsMapping [] none
          (some [⟨"USDC", 50, none⟩]) 0)).existingHistoricalData.length = 1 ∧
    (createHistoricalDataEntry tokenToAllMidsMapping [] none
        (some [⟨"USDC", 50, none⟩]) 0).clearinghouseState = 0 ∧
    (createHistoricalDataEntry tokenToAllMidsMapping [] none
        (some [⟨"USDC", 50, none⟩]) 0).totalAccountValue = 50 := by
  with_unfolding_all decide

theorem foldl_filter_skip {α β : Type} (p : α → Bool)
    (f : β → α → β) (hf : ∀ acc a, p a = false → f acc a = acc) :
    ∀ (l : List α) (acc : β), (l.filter p).foldl f acc = l.foldl f acc := by
  intro l
  induction l with
  | nil => intro acc; rfl
  | cons a l ih =>
    intro acc
    cases h : p a with
    | true =>
      rw [List.filter_cons_of_pos h, List.foldl_cons, List.foldl_cons]
      exact ih _
    | false =>
      rw [List.filter_cons_of_neg (by simp [h]), List.foldl_cons, hf acc a h]
      exact ih acc

/-- C6 (amended): in the live-price valuation path, balances with
non-positive quantity are skipped entirely (removing them changes neither
the total nor the prices-used record), and the fallback path's prices-used
recording also skips them; but in the fallback path's *total* a
zero-quantity non-USDC balance still contributes its `entryNtl` notional. -/
theorem zeroQuantitySkip_spec :
    (∀ (aliases : List (String × String)) (latestPrices : PriceCache)
        (clearinghouseValue : ℚ) (spotBalances : List SpotBalance),
      calculateTotalAccountValueWithCurrentPrices aliases latestPrices
          clearinghouseValue (spotBalances.filter (fun b => 0 < b.total))
        = calculateTotalAccountValueWithCurrentPrices aliases latestPrices
            clearinghouseValue spotBalances) ∧
    (∀ (aliases : List (String × String)) (marginAccountValue : Option ℚ)
        (spotBalances : List SpotBalance) (serverTime : Nat),
      (createHistoricalDataEntry aliases [] marginAccountValue
          (some (spotBalances.filter (fun b => 0 < b.total))) serverTime).pricesUsed
        = (createHistoricalDataEntry aliases [] marginAccountValue
            (some spotBalances) serverTime).pricesUsed) ∧
    (createHistoricalDataEntry tokenToAllMidsMapping [] (some 0)
        (some [⟨"FOO", 0, some 190⟩]) 0).pricesUsed = [] ∧
    (createHistoricalDataEntry tokenToAllMidsMapping [] (some 0)
        (some [⟨"FOO", 0, some 190⟩]) 0).totalAccountValue = 190 := by
  refine ⟨?_, ?_, by with_unfolding_all decide, by with_unfolding_all decide⟩
  · intro aliases latestPrices clearinghouseValue spotBalances
    unfold calculateTotalAccountValueWithCurrentPrices
    refine foldl_filter_skip (fun b => decide (0 < b.total)) _ ?_ spotBalances
      (clearinghouseValue, [])
    intro acc b h
    dsimp only
    rw [if_pos (not_lt.mp (of_decide_eq_false h))]
  · intro aliases marginAccountValue spotBalances serverTime
    have h := foldl_filter_skip (fun b => decide (0 < b.total))
      (fun acc balance =>
        if 0 < balance.total then
          if balance.coin = "USDC" then mapSet acc balance.coin (PriceUsed.price 1)
          else mapSet acc balance.coin
            (PriceUsed.entryNtlMark (balance.entryNtl.getD 0))
        else acc)
      (fun acc b hb => if_neg (of_decide_eq_false hb))
      spotBalances []
    exact h

/-- C6 counterexample: a zero-quantity non-USDC balance carrying
`entryNtl = 190` contributes 190 to the fallback valuation
(`calculateTotalAccountValue` has no quantity check), instead of being
skipped entirely as the claim states. -/
theorem zeroQuantitySkip_counterexample :
    calculateTotalAccountValue 0 [⟨"FOO", 0, some 190⟩] = 190 := by
  with_unfolding_all decide

theorem handleMessage_frame_witness :
    connLookup (handleMessage sampleClient "conn-1" 99 (some (.other "pong")))
        "conn-2"
      = connLookup sampleClient "conn-2" :=
  ((handleMessage_frame sampleClient "conn-1" 99).2.1 (.other "pong")).2.2
    "conn-2" (by decide)
